import Mathlib

/-!
# route_exporter: the sampling-and-diff cycle `collectRoutes` (src/route.go)

Shallow embedding of `collectRoutes` and of the process globals it touches.

Modelling conventions
* A Go `string` is a list of code points (`List Char`); the command output is
  taken to be valid UTF-8 text, so splitting on the byte `\n` and splitting on
  the code point `\n` agree.
* `map[string]struct{}` is the list of its keys.  `currentRoutes[route] = struct{}{}`
  is `List.insert`.  Go leaves the order in which `range` visits a map
  unspecified; `rangeKeys` turns an arbitrary seed into one visiting order, and
  every order is obtained from some seed (`rangeKeys_eq_of_enumeration`).
* A `GaugeVec` is a function from the label value to the child's value, `none`
  when the child was never created.  Gauge values are integers: the code only
  stores `0`, `1` and `float64(time.Now().Unix())`, which is exact and
  order-preserving on Unix times.
* `time.Now().Unix()` is read from a stream `clock : Nat → Int`; `clockReads`
  counts the readings taken so far, so each call of `time.Now()` gets its own
  reading.
* Every `log.Printf` and every gauge `Set` is recorded, in program order, in
  the list of events a call emits.
* Calls run one after another (the loop of `main`); `mu.Lock` and `mu.Unlock`
  have no effect on such a run and are left out.
-/

namespace RouteExporter

/-- A Go string, as its sequence of code points. -/
abbrev Str := List Char

/-- Go `unicode.IsSpace`: the code points with the Unicode White_Space property. -/
def isSpace (c : Char) : Bool :=
  let n := c.toNat
  (0x09 ≤ n && n ≤ 0x0d) || n == 0x20 || n == 0x85 || n == 0xa0 || n == 0x1680 ||
  (0x2000 ≤ n && n ≤ 0x200a) || n == 0x2028 || n == 0x2029 || n == 0x202f ||
  n == 0x205f || n == 0x3000

/-- Go `strings.TrimSpace`: leading and trailing white space removed. -/
def trimSpace (s : Str) : Str :=
  ((s.dropWhile isSpace).reverse.dropWhile isSpace).reverse

/-- Go `strings.Split(s, "\n")`: the substrings between newlines; always at
least one element. -/
def split : Str → List Str
  | [] => [[]]
  | c :: cs =>
    if c = '\n' then [] :: split cs
    else
      match split cs with
      | [] => [[c]]
      | l :: ls => (c :: l) :: ls

/-- The process globals of route.go (lines 16-46) that `collectRoutes` reads
and writes. -/
structure State where
  /-- Keys of `previousRoutes`. -/
  previousRoutes : List Str
  /-- Value of the gauge `ip_route_changes`. -/
  ipRouteChanges : Int
  /-- Children of the gauge vector `ip_routes_list`, by route label. -/
  ipRoutesList : Str → Option Int
  /-- Children of the gauge vector `ip_route_last_change_timestamp`. -/
  ipRouteLastChangeTimestamp : Str → Option Int

/-- Globals at process start: empty map, gauge at 0, no labelled child. -/
def State.init : State :=
  { previousRoutes := []
    ipRouteChanges := 0
    ipRoutesList := fun _ => none
    ipRouteLastChangeTimestamp := fun _ => none }

/-- The globals together with the number of clock readings taken so far. -/
structure Sys where
  state : State
  clockReads : Nat

/-- The process before its first cycle. -/
def Sys.init : Sys := { state := State.init, clockReads := 0 }

/-- What one call of `collectRoutes` receives from outside: the result of
`cmd.Output()` (`none` when `err != nil`) and the seed of the order in which
`range previousRoutes` visits the keys. -/
structure Call where
  output : Option Str
  rangeSeed : List Str

/-- Observable actions of `collectRoutes`, in program order. -/
inductive Event where
  /-- Line 58, `log.Printf("Error executing command: ...")`. -/
  | logError
  /-- Line 82, `log.Printf("Route added: %s", route)`. -/
  | logAdded (route : Str)
  /-- Line 92, `log.Printf("Route removed: %s", route)`. -/
  | logRemoved (route : Str)
  /-- Lines 76 and 96, `ipRoutesList.WithLabelValues(route).Set(v)`. -/
  | setRoutesList (route : Str) (v : Int)
  /-- Lines 77 and 97, `ipRouteLastChangeTimestamp.WithLabelValues(route).Set(v)`. -/
  | setLastChange (route : Str) (v : Int)
  /-- Lines 104 and 106, `ipRouteChanges.Set(v)`. -/
  | setChanges (v : Int)
  deriving DecidableEq

/-- Everything a running call can touch: the globals, the clock position, the
events emitted so far, and the locals `currentRoutes` and `changesDetected`. -/
structure Frame where
  state : State
  clockReads : Nat
  events : List Event
  currentRoutes : List Str
  changesDetected : Bool

/-- The order in which `range keys` visits a map whose keys are `keys`: first
the keys named by the seed, in seed order, then the others.  Each key is
visited once. -/
def rangeKeys (seed keys : List Str) : List Str :=
  (seed.filter (fun r => decide (r ∈ keys))).dedup ++
    keys.dedup.filter (fun r => decide (r ∉ seed))

/-- Body of the first loop (lines 67-86) for one line. -/
def lineStep (clock : Nat → Int) (f : Frame) (line : Str) : Frame :=
  if line = [] then f
  else
    let route := trimSpace line
    let now := clock f.clockReads
    let st : State :=
      { f.state with
        ipRoutesList := Function.update f.state.ipRoutesList route (some 1)
        ipRouteLastChangeTimestamp :=
          Function.update f.state.ipRouteLastChangeTimestamp route (some now) }
    let ev := f.events ++ [Event.setRoutesList route 1, Event.setLastChange route now]
    if route ∈ f.state.previousRoutes then
      { state := st
        clockReads := f.clockReads + 1
        events := ev
        currentRoutes := f.currentRoutes.insert route
        changesDetected := f.changesDetected }
    else
      { state := st
        clockReads := f.clockReads + 1
        events := ev ++ [Event.logAdded route]
        currentRoutes := f.currentRoutes.insert route
        changesDetected := true }

/-- Body of the second loop (lines 89-99) for one key of `previousRoutes`. -/
def removedStep (clock : Nat → Int) (f : Frame) (route : Str) : Frame :=
  if route ∈ f.currentRoutes then f
  else
    let now := clock f.clockReads
    { state :=
        { f.state with
          ipRoutesList := Function.update f.state.ipRoutesList route (some 0)
          ipRouteLastChangeTimestamp :=
            Function.update f.state.ipRouteLastChangeTimestamp route (some now) }
      clockReads := f.clockReads + 1
      events := f.events ++
        [Event.logRemoved route, Event.setRoutesList route 0, Event.setLastChange route now]
      currentRoutes := f.currentRoutes
      changesDetected := true }

/-- Result of one call: the system afterwards and the events the call emitted. -/
structure Outcome where
  sys : Sys
  events : List Event

/-- One call of `collectRoutes` (lines 54-108). -/
def collectRoutes (clock : Nat → Int) (w : Sys) (c : Call) : Outcome :=
  match c.output with
  | none => { sys := w, events := [Event.logError] }
  | some output =>
    let lines := split output
    let f0 : Frame :=
      { state := w.state
        clockReads := w.clockReads
        events := []
        currentRoutes := []
        changesDetected := false }
    let f1 := lines.foldl (lineStep clock) f0
    let f2 := (rangeKeys c.rangeSeed f1.state.previousRoutes).foldl (removedStep clock) f1
    let v : Int := if f2.changesDetected then 1 else 0
    { sys :=
        { state :=
            { previousRoutes := f2.currentRoutes
              ipRouteChanges := v
              ipRoutesList := f2.state.ipRoutesList
              ipRouteLastChangeTimestamp := f2.state.ipRouteLastChangeTimestamp }
          clockReads := f2.clockReads }
      events := f2.events ++ [Event.setChanges v] }

/-- The collector loop of `main` (lines 116-119): one call after another. -/
def run (clock : Nat → Int) (w : Sys) (cs : List Call) : Sys :=
  cs.foldl (fun w c => (collectRoutes clock w c).sys) w

/-- Route `r` is produced by some non-empty line of `ls`. -/
def Seen (ls : List Str) (r : Str) : Prop :=
  ∃ l ∈ ls, l ≠ [] ∧ trimSpace l = r

/-- The frame of a successful call after the first loop. -/
def afterLines (clock : Nat → Int) (w : Sys) (out : Str) : Frame :=
  (split out).foldl (lineStep clock)
    { state := w.state
      clockReads := w.clockReads
      events := []
      currentRoutes := []
      changesDetected := false }

/-- The frame of a successful call after the second loop. -/
def afterKeys (clock : Nat → Int) (w : Sys) (seed : List Str) (out : Str) : Frame :=
  (rangeKeys seed (afterLines clock w out).state.previousRoutes).foldl (removedStep clock)
    (afterLines clock w out)

/-- A clock that reads 100, 200, 300, ... -/
def sampleClock : Nat → Int := fun k => 100 * (k + 1)

/-- A successful fetch whose output is the single line `a`. -/
def sampleCall : Call := { output := some ['a', '\n'], rangeSeed := [] }

/-- A successful fetch whose output is the line `a` followed by a line holding
one space. -/
def blankLineCall : Call := { output := some ['a', '\n', ' ', '\n'], rangeSeed := [] }

/-- A failed fetch. -/
def failedCall : Call := { output := none, rangeSeed := [] }

/-- A successful fetch whose output is the two lines `a`, `b`. -/
def twoRoutesCall : Call := { output := some ['a', '\n', 'b', '\n'], rangeSeed := [] }

/-- A successful fetch listing the same two routes in another order, `a` twice
and padded with spaces, with another range order for the map. -/
def shuffledCall : Call :=
  { output := some ['b', '\n', ' ', 'a', '\n', 'a', ' ', '\n'], rangeSeed := [['b'], ['a']] }

/-- Every stored last-change timestamp is at most every clock reading still
to come. -/
def TimestampsPast (clock : Nat → Int) (w : Sys) : Prop :=
  ∀ r v, w.state.ipRouteLastChangeTimestamp r = some v →
    ∀ k, w.clockReads ≤ k → v ≤ clock k

/-- The presence gauge agrees with the retained snapshot: presence 1 exactly on
the keys of `previousRoutes`, and any other existing child holds 0. -/
def PresenceAgrees (s : State) : Prop :=
  ∀ r, (s.ipRoutesList r = some 1 ↔ r ∈ s.previousRoutes) ∧
    ∀ v, s.ipRoutesList r = some v → r ∉ s.previousRoutes → v = 0

/-! ## The first loop -/

theorem seen_nil (r : Str) : ¬ Seen [] r := by
  simp [Seen]

theorem seen_cons (l : Str) (ls : List Str) (r : Str) :
    Seen (l :: ls) r ↔ (l ≠ [] ∧ trimSpace l = r) ∨ Seen ls r := by
  simp [Seen]

theorem lineStep_previousRoutes (clock : Nat → Int) (f : Frame) (l : Str) :
    (lineStep clock f l).state.previousRoutes = f.state.previousRoutes := by
  simp only [lineStep]
  split_ifs <;> rfl

theorem lineStep_ipRouteChanges (clock : Nat → Int) (f : Frame) (l : Str) :
    (lineStep clock f l).state.ipRouteChanges = f.state.ipRouteChanges := by
  simp only [lineStep]
  split_ifs <;> rfl

theorem lineStep_clockReads_le (clock : Nat → Int) (f : Frame) (l : Str) :
    f.clockReads ≤ (lineStep clock f l).clockReads := by
  simp only [lineStep]
  split_ifs <;> simp

theorem lineStep_currentRoutes (clock : Nat → Int) (f : Frame) (l : Str) (r : Str) :
    r ∈ (lineStep clock f l).currentRoutes ↔
      r ∈ f.currentRoutes ∨ (l ≠ [] ∧ trimSpace l = r) := by
  simp only [lineStep]
  split_ifs with h1 h2
  · simp [h1]
  · simp only [List.mem_insert_iff, h1, ne_eq, not_false_eq_true, true_and]
    tauto
  · simp only [List.mem_insert_iff, h1, ne_eq, not_false_eq_true, true_and]
    tauto

theorem lineStep_ipRoutesList (clock : Nat → Int) (f : Frame) (l : Str) (r : Str) :
    (lineStep clock f l).state.ipRoutesList r =
      if l ≠ [] ∧ trimSpace l = r then some 1 else f.state.ipRoutesList r := by
  simp only [lineStep]
  split_ifs with h1 h2 h3 h4 h5 <;> simp_all [Function.update_apply] <;> tauto

theorem lineStep_timestamp (clock : Nat → Int) (f : Frame) (l : Str) (r : Str) :
    (lineStep clock f l).state.ipRouteLastChangeTimestamp r =
      if l ≠ [] ∧ trimSpace l = r then some (clock f.clockReads)
      else f.state.ipRouteLastChangeTimestamp r := by
  simp only [lineStep]
  split_ifs with h1 h2 h3 h4 h5 <;> simp_all [Function.update_apply] <;> tauto

theorem lineStep_clockReads_lt (clock : Nat → Int) (f : Frame) (l : Str) (h : l ≠ []) :
    f.clockReads < (lineStep clock f l).clockReads := by
  simp only [lineStep]
  split_ifs <;> simp_all

theorem lineStep_changesDetected (clock : Nat → Int) (f : Frame) (l : Str) :
    (lineStep clock f l).changesDetected = true ↔
      f.changesDetected = true ∨ (l ≠ [] ∧ trimSpace l ∉ f.state.previousRoutes) := by
  simp only [lineStep]
  split_ifs with h1 h2 <;> simp_all

theorem lineStep_events (clock : Nat → Int) (f : Frame) (l : Str) :
    (lineStep clock f l).events = f.events ++
      (if l = [] then []
       else if trimSpace l ∈ f.state.previousRoutes then
         [Event.setRoutesList (trimSpace l) 1,
          Event.setLastChange (trimSpace l) (clock f.clockReads)]
       else
         [Event.setRoutesList (trimSpace l) 1,
          Event.setLastChange (trimSpace l) (clock f.clockReads),
          Event.logAdded (trimSpace l)]) := by
  simp only [lineStep]
  split_ifs with h1 h2 <;> simp

theorem lines_previousRoutes (clock : Nat → Int) (ls : List Str) (f : Frame) :
    (ls.foldl (lineStep clock) f).state.previousRoutes = f.state.previousRoutes := by
  induction ls generalizing f with
  | nil => rfl
  | cons l ls ih => rw [List.foldl_cons, ih, lineStep_previousRoutes]

theorem lines_ipRouteChanges (clock : Nat → Int) (ls : List Str) (f : Frame) :
    (ls.foldl (lineStep clock) f).state.ipRouteChanges = f.state.ipRouteChanges := by
  induction ls generalizing f with
  | nil => rfl
  | cons l ls ih => rw [List.foldl_cons, ih, lineStep_ipRouteChanges]

theorem lines_clockReads_le (clock : Nat → Int) (ls : List Str) (f : Frame) :
    f.clockReads ≤ (ls.foldl (lineStep clock) f).clockReads := by
  induction ls generalizing f with
  | nil => exact le_refl _
  | cons l ls ih =>
    rw [List.foldl_cons]
    exact le_trans (lineStep_clockReads_le clock f l) (ih _)

theorem lines_currentRoutes (clock : Nat → Int) (ls : List Str) (f : Frame) (r : Str) :
    r ∈ (ls.foldl (lineStep clock) f).currentRoutes ↔ r ∈ f.currentRoutes ∨ Seen ls r := by
  induction ls generalizing f with
  | nil => simp [seen_nil]
  | cons l ls ih =>
    rw [List.foldl_cons, ih, lineStep_currentRoutes, seen_cons]
    tauto

theorem lines_ipRoutesList_unseen (clock : Nat → Int) (ls : List Str) (f : Frame) (r : Str)
    (h : ¬ Seen ls r) :
    (ls.foldl (lineStep clock) f).state.ipRoutesList r = f.state.ipRoutesList r := by
  induction ls generalizing f with
  | nil => rfl
  | cons l ls ih =>
    rw [seen_cons] at h
    push_neg at h
    rw [List.foldl_cons, ih _ h.2, lineStep_ipRoutesList, if_neg]
    exact fun hl => h.1 hl.1 hl.2

theorem lines_ipRoutesList_seen (clock : Nat → Int) (ls : List Str) (f : Frame) (r : Str)
    (h : Seen ls r) :
    (ls.foldl (lineStep clock) f).state.ipRoutesList r = some 1 := by
  induction ls generalizing f with
  | nil => exact absurd h (seen_nil r)
  | cons l ls ih =>
    rw [List.foldl_cons]
    by_cases hs : Seen ls r
    · exact ih _ hs
    · rw [lines_ipRoutesList_unseen clock ls _ r hs, lineStep_ipRoutesList, if_pos]
      rcases (seen_cons l ls r).1 h with h1 | h1
      · exact h1
      · exact absurd h1 hs

theorem lines_timestamp_unseen (clock : Nat → Int) (ls : List Str) (f : Frame) (r : Str)
    (h : ¬ Seen ls r) :
    (ls.foldl (lineStep clock) f).state.ipRouteLastChangeTimestamp r =
      f.state.ipRouteLastChangeTimestamp r := by
  induction ls generalizing f with
  | nil => rfl
  | cons l ls ih =>
    rw [seen_cons] at h
    push_neg at h
    rw [List.foldl_cons, ih _ h.2, lineStep_timestamp, if_neg]
    exact fun hl => h.1 hl.1 hl.2

theorem lines_timestamp_seen (clock : Nat → Int) (ls : List Str) (f : Frame) (r : Str)
    (h : Seen ls r) :
    ∃ k, f.clockReads ≤ k ∧ k < (ls.foldl (lineStep clock) f).clockReads ∧
      (ls.foldl (lineStep clock) f).state.ipRouteLastChangeTimestamp r = some (clock k) := by
  induction ls generalizing f with
  | nil => exact absurd h (seen_nil r)
  | cons l ls ih =>
    rw [List.foldl_cons]
    by_cases hs : Seen ls r
    · obtain ⟨k, hk1, hk2, hk3⟩ := ih (lineStep clock f l) hs
      exact ⟨k, le_trans (lineStep_clockReads_le clock f l) hk1, hk2, hk3⟩
    · have hl : l ≠ [] ∧ trimSpace l = r := by
        rcases (seen_cons l ls r).1 h with h1 | h1
        · exact h1
        · exact absurd h1 hs
      refine ⟨f.clockReads, le_refl _, ?_, ?_⟩
      · exact lt_of_lt_of_le (lineStep_clockReads_lt clock f l hl.1)
          (lines_clockReads_le clock ls _)
      · rw [lines_timestamp_unseen clock ls _ r hs, lineStep_timestamp, if_pos hl]

theorem lines_changesDetected (clock : Nat → Int) (ls : List Str) (f : Frame) :
    (ls.foldl (lineStep clock) f).changesDetected = true ↔
      f.changesDetected = true ∨ ∃ r, Seen ls r ∧ r ∉ f.state.previousRoutes := by
  induction ls generalizing f with
  | nil => simp [seen_nil]
  | cons l ls ih =>
    rw [List.foldl_cons, ih, lineStep_changesDetected, lineStep_previousRoutes]
    constructor
    · rintro ((h | ⟨h1, h2⟩) | ⟨r, h1, h2⟩)
      · exact Or.inl h
      · exact Or.inr ⟨trimSpace l, (seen_cons l ls _).2 (Or.inl ⟨h1, rfl⟩), h2⟩
      · exact Or.inr ⟨r, (seen_cons l ls r).2 (Or.inr h1), h2⟩
    · rintro (h | ⟨r, h1, h2⟩)
      · exact Or.inl (Or.inl h)
      · rcases (seen_cons l ls r).1 h1 with ⟨h3, h4⟩ | h3
        · subst h4
          exact Or.inl (Or.inr ⟨h3, h2⟩)
        · exact Or.inr ⟨r, h3, h2⟩

theorem lines_events_setRoutesList (clock : Nat → Int) (ls : List Str) (f : Frame)
    (r : Str) (v : Int) :
    Event.setRoutesList r v ∈ (ls.foldl (lineStep clock) f).events ↔
      Event.setRoutesList r v ∈ f.events ∨ (v = 1 ∧ Seen ls r) := by
  induction ls generalizing f with
  | nil => simp [seen_nil]
  | cons l ls ih =>
    rw [List.foldl_cons, ih, lineStep_events, seen_cons, List.mem_append]
    split_ifs with h1 h2 <;> simp [h1] <;> tauto

theorem lines_events_logAdded (clock : Nat → Int) (ls : List Str) (f : Frame) (r : Str) :
    Event.logAdded r ∈ (ls.foldl (lineStep clock) f).events ↔
      Event.logAdded r ∈ f.events ∨ (Seen ls r ∧ r ∉ f.state.previousRoutes) := by
  induction ls generalizing f with
  | nil => simp [seen_nil]
  | cons l ls ih =>
    rw [List.foldl_cons, ih, lineStep_events, lineStep_previousRoutes, seen_cons,
      List.mem_append]
    split_ifs with h1 h2 <;> simp [h1]
    · constructor
      · tauto
      · rintro (h | ⟨h | h, h3⟩)
        · exact Or.inl h
        · subst h
          exact absurd h2 h3
        · exact Or.inr ⟨h, h3⟩
    · constructor
      · rintro ((h | h) | h)
        · exact Or.inl h
        · subst h
          exact Or.inr ⟨Or.inl rfl, h2⟩
        · exact Or.inr ⟨Or.inr h.1, h.2⟩
      · rintro (h | ⟨h | h, h3⟩)
        · exact Or.inl (Or.inl h)
        · exact Or.inl (Or.inr h.symm)
        · exact Or.inr ⟨h, h3⟩

theorem lines_events_logRemoved (clock : Nat → Int) (ls : List Str) (f : Frame) (r : Str) :
    Event.logRemoved r ∈ (ls.foldl (lineStep clock) f).events ↔
      Event.logRemoved r ∈ f.events := by
  induction ls generalizing f with
  | nil => rfl
  | cons l ls ih =>
    rw [List.foldl_cons, ih, lineStep_events, List.mem_append]
    split_ifs with h1 h2 <;> simp

/-! ## The second loop -/

theorem mem_rangeKeys (seed keys : List Str) (r : Str) :
    r ∈ rangeKeys seed keys ↔ r ∈ keys := by
  simp only [rangeKeys, List.mem_append, List.mem_dedup, List.mem_filter, decide_eq_true_eq]
  tauto

theorem nodup_rangeKeys (seed keys : List Str) : (rangeKeys seed keys).Nodup := by
  unfold rangeKeys
  rw [List.nodup_append]
  refine ⟨List.nodup_dedup _, (List.nodup_dedup _).filter _, ?_⟩
  intro r h1 h2
  simp only [List.mem_dedup, List.mem_filter, decide_eq_true_eq] at h1 h2
  exact h2.2 h1.1

theorem rangeKeys_eq_of_enumeration (order keys : List Str) (hn : order.Nodup)
    (hm : ∀ r, r ∈ order ↔ r ∈ keys) : rangeKeys order keys = order := by
  unfold rangeKeys
  have h1 : order.filter (fun r => decide (r ∈ keys)) = order := by
    rw [List.filter_eq_self]
    intro r hr
    simpa using (hm r).1 hr
  have h2 : keys.dedup.filter (fun r => decide (r ∉ order)) = [] := by
    rw [List.filter_eq_nil_iff]
    intro r hr
    simpa using (hm r).2 (List.mem_dedup.1 hr)
  rw [h1, h2, List.append_nil, List.dedup_eq_self.2 hn]

theorem removedStep_previousRoutes (clock : Nat → Int) (f : Frame) (k : Str) :
    (removedStep clock f k).state.previousRoutes = f.state.previousRoutes := by
  simp only [removedStep]
  split_ifs <;> rfl

theorem removedStep_ipRouteChanges (clock : Nat → Int) (f : Frame) (k : Str) :
    (removedStep clock f k).state.ipRouteChanges = f.state.ipRouteChanges := by
  simp only [removedStep]
  split_ifs <;> rfl

theorem removedStep_currentRoutes (clock : Nat → Int) (f : Frame) (k : Str) :
    (removedStep clock f k).currentRoutes = f.currentRoutes := by
  simp only [removedStep]
  split_ifs <;> rfl

theorem removedStep_clockReads_le (clock : Nat → Int) (f : Frame) (k : Str) :
    f.clockReads ≤ (removedStep clock f k).clockReads := by
  simp only [removedStep]
  split_ifs <;> simp

theorem removedStep_clockReads_lt (clock : Nat → Int) (f : Frame) (k : Str)
    (h : k ∉ f.currentRoutes) :
    f.clockReads < (removedStep clock f k).clockReads := by
  simp only [removedStep]
  split_ifs <;> simp_all

theorem removedStep_ipRoutesList (clock : Nat → Int) (f : Frame) (k : Str) (r : Str) :
    (removedStep clock f k).state.ipRoutesList r =
      if k = r ∧ r ∉ f.currentRoutes then some 0 else f.state.ipRoutesList r := by
  simp only [removedStep]
  by_cases h1 : k ∈ f.currentRoutes
  · rw [if_pos h1, if_neg]
    rintro ⟨h2, h3⟩
    exact h3 (h2 ▸ h1)
  · rw [if_neg h1]
    by_cases h2 : k = r
    · subst h2
      simp [h1]
    · have h3 : r ≠ k := fun h => h2 h.symm
      simp [Function.update_noteq h3, h2]

theorem removedStep_timestamp (clock : Nat → Int) (f : Frame) (k : Str) (r : Str) :
    (removedStep clock f k).state.ipRouteLastChangeTimestamp r =
      if k = r ∧ r ∉ f.currentRoutes then some (clock f.clockReads)
      else f.state.ipRouteLastChangeTimestamp r := by
  simp only [removedStep]
  by_cases h1 : k ∈ f.currentRoutes
  · rw [if_pos h1, if_neg]
    rintro ⟨h2, h3⟩
    exact h3 (h2 ▸ h1)
  · rw [if_neg h1]
    by_cases h2 : k = r
    · subst h2
      simp [h1]
    · have h3 : r ≠ k := fun h => h2 h.symm
      simp [Function.update_noteq h3, h2]

theorem removedStep_changesDetected (clock : Nat → Int) (f : Frame) (k : Str) :
    (removedStep clock f k).changesDetected = true ↔
      f.changesDetected = true ∨ k ∉ f.currentRoutes := by
  simp only [removedStep]
  split_ifs with h1
  · simp [h1]
  · simp [h1]

theorem removedStep_events (clock : Nat → Int) (f : Frame) (k : Str) :
    (removedStep clock f k).events = f.events ++
      (if k ∈ f.currentRoutes then []
       else [Event.logRemoved k, Event.setRoutesList k 0,
             Event.setLastChange k (clock f.clockReads)]) := by
  simp only [removedStep]
  split_ifs with h1 <;> simp

theorem keys_previousRoutes (clock : Nat → Int) (ks : List Str) (f : Frame) :
    (ks.foldl (removedStep clock) f).state.previousRoutes = f.state.previousRoutes := by
  induction ks generalizing f with
  | nil => rfl
  | cons k ks ih => rw [List.foldl_cons, ih, removedStep_previousRoutes]

theorem keys_ipRouteChanges (clock : Nat → Int) (ks : List Str) (f : Frame) :
    (ks.foldl (removedStep clock) f).state.ipRouteChanges = f.state.ipRouteChanges := by
  induction ks generalizing f with
  | nil => rfl
  | cons k ks ih => rw [List.foldl_cons, ih, removedStep_ipRouteChanges]

theorem keys_currentRoutes (clock : Nat → Int) (ks : List Str) (f : Frame) :
    (ks.foldl (removedStep clock) f).currentRoutes = f.currentRoutes := by
  induction ks generalizing f with
  | nil => rfl
  | cons k ks ih => rw [List.foldl_cons, ih, removedStep_currentRoutes]

theorem keys_clockReads_le (clock : Nat → Int) (ks : List Str) (f : Frame) :
    f.clockReads ≤ (ks.foldl (removedStep clock) f).clockReads := by
  induction ks generalizing f with
  | nil => exact le_refl _
  | cons k ks ih =>
    rw [List.foldl_cons]
    exact le_trans (removedStep_clockReads_le clock f k) (ih _)

theorem keys_ipRoutesList_other (clock : Nat → Int) (ks : List Str) (f : Frame) (r : Str)
    (h : ¬ (r ∈ ks ∧ r ∉ f.currentRoutes)) :
    (ks.foldl (removedStep clock) f).state.ipRoutesList r = f.state.ipRoutesList r := by
  induction ks generalizing f with
  | nil => rfl
  | cons k ks ih =>
    rw [List.foldl_cons, ih, removedStep_ipRoutesList, if_neg]
    · rintro ⟨h1, h2⟩
      exact h ⟨by simp [h1], h2⟩
    · rw [removedStep_currentRoutes]
      rintro ⟨h1, h2⟩
      exact h ⟨List.mem_cons_of_mem _ h1, h2⟩

theorem keys_ipRoutesList_removed (clock : Nat → Int) (ks : List Str) (f : Frame) (r : Str)
    (h1 : r ∈ ks) (h2 : r ∉ f.currentRoutes) :
    (ks.foldl (removedStep clock) f).state.ipRoutesList r = some 0 := by
  induction ks generalizing f with
  | nil => simp at h1
  | cons k ks ih =>
    rw [List.foldl_cons]
    by_cases hs : r ∈ ks
    · exact ih _ hs (by rw [removedStep_currentRoutes]; exact h2)
    · have hk : k = r := by
        rcases List.mem_cons.1 h1 with h | h
        · exact h.symm
        · exact absurd h hs
      rw [keys_ipRoutesList_other clock ks _ r (fun hh => hs hh.1), removedStep_ipRoutesList,
        if_pos ⟨hk, h2⟩]

theorem keys_timestamp_other (clock : Nat → Int) (ks : List Str) (f : Frame) (r : Str)
    (h : ¬ (r ∈ ks ∧ r ∉ f.currentRoutes)) :
    (ks.foldl (removedStep clock) f).state.ipRouteLastChangeTimestamp r =
      f.state.ipRouteLastChangeTimestamp r := by
  induction ks generalizing f with
  | nil => rfl
  | cons k ks ih =>
    rw [List.foldl_cons, ih, removedStep_timestamp, if_neg]
    · rintro ⟨h1, h2⟩
      exact h ⟨by simp [h1], h2⟩
    · rw [removedStep_currentRoutes]
      rintro ⟨h1, h2⟩
      exact h ⟨List.mem_cons_of_mem _ h1, h2⟩

theorem keys_timestamp_removed (clock : Nat → Int) (ks : List Str) (f : Frame) (r : Str)
    (h1 : r ∈ ks) (h2 : r ∉ f.currentRoutes) :
    ∃ k, f.clockReads ≤ k ∧ k < (ks.foldl (removedStep clock) f).clockReads ∧
      (ks.foldl (removedStep clock) f).state.ipRouteLastChangeTimestamp r = some (clock k) := by
  induction ks generalizing f with
  | nil => simp at h1
  | cons k ks ih =>
    rw [List.foldl_cons]
    by_cases hs : r ∈ ks
    · obtain ⟨j, hj1, hj2, hj3⟩ :=
        ih (removedStep clock f k) hs (by rw [removedStep_currentRoutes]; exact h2)
      exact ⟨j, le_trans (removedStep_clockReads_le clock f k) hj1, hj2, hj3⟩
    · have hk : k = r := by
        rcases List.mem_cons.1 h1 with h | h
        · exact h.symm
        · exact absurd h hs
      refine ⟨f.clockReads, le_refl _, ?_, ?_⟩
      · exact lt_of_lt_of_le (removedStep_clockReads_lt clock f k (hk ▸ h2))
          (keys_clockReads_le clock ks _)
      · rw [keys_timestamp_other clock ks _ r (fun hh => hs hh.1), removedStep_timestamp,
          if_pos ⟨hk, h2⟩]

theorem keys_changesDetected (clock : Nat → Int) (ks : List Str) (f : Frame) :
    (ks.foldl (removedStep clock) f).changesDetected = true ↔
      f.changesDetected = true ∨ ∃ r, r ∈ ks ∧ r ∉ f.currentRoutes := by
  induction ks generalizing f with
  | nil => simp
  | cons k ks ih =>
    rw [List.foldl_cons, ih, removedStep_changesDetected, removedStep_currentRoutes]
    constructor
    · rintro ((h | h) | ⟨r, h1, h2⟩)
      · exact Or.inl h
      · exact Or.inr ⟨k, List.mem_cons_self _ _, h⟩
      · exact Or.inr ⟨r, List.mem_cons_of_mem _ h1, h2⟩
    · rintro (h | ⟨r, h1, h2⟩)
      · exact Or.inl (Or.inl h)
      · rcases List.mem_cons.1 h1 with h3 | h3
        · subst h3
          exact Or.inl (Or.inr h2)
        · exact Or.inr ⟨r, h3, h2⟩

theorem keys_events_setRoutesList (clock : Nat → Int) (ks : List Str) (f : Frame)
    (r : Str) (v : Int) :
    Event.setRoutesList r v ∈ (ks.foldl (removedStep clock) f).events ↔
      Event.setRoutesList r v ∈ f.events ∨ (v = 0 ∧ r ∈ ks ∧ r ∉ f.currentRoutes) := by
  induction ks generalizing f with
  | nil => simp
  | cons k ks ih =>
    rw [List.foldl_cons, ih, removedStep_events, removedStep_currentRoutes, List.mem_append]
    split_ifs with h1
    · simp only [List.not_mem_nil, or_false, List.mem_cons]
      constructor
      · tauto
      · rintro (h | ⟨h2, h3 | h3, h4⟩)
        · exact Or.inl h
        · subst h3
          exact absurd h1 h4
        · exact Or.inr ⟨h2, h3, h4⟩
    · simp only [List.mem_cons, Event.setRoutesList.injEq, List.not_mem_nil, or_false,
        false_or, reduceCtorEq]
      constructor
      · rintro ((h | ⟨h2, h3⟩) | ⟨h2, h3, h4⟩)
        · exact Or.inl h
        · subst h2
          exact Or.inr ⟨h3, Or.inl rfl, h1⟩
        · exact Or.inr ⟨h2, Or.inr h3, h4⟩
      · rintro (h | ⟨h2, h3 | h3, h4⟩)
        · exact Or.inl (Or.inl h)
        · exact Or.inl (Or.inr ⟨h3, h2⟩)
        · exact Or.inr ⟨h2, h3, h4⟩

theorem keys_events_logRemoved (clock : Nat → Int) (ks : List Str) (f : Frame) (r : Str) :
    Event.logRemoved r ∈ (ks.foldl (removedStep clock) f).events ↔
      Event.logRemoved r ∈ f.events ∨ (r ∈ ks ∧ r ∉ f.currentRoutes) := by
  induction ks generalizing f with
  | nil => simp
  | cons k ks ih =>
    rw [List.foldl_cons, ih, removedStep_events, removedStep_currentRoutes, List.mem_append]
    split_ifs with h1
    · simp only [List.not_mem_nil, or_false, List.mem_cons]
      constructor
      · tauto
      · rintro (h | ⟨h3 | h3, h4⟩)
        · exact Or.inl h
        · subst h3
          exact absurd h1 h4
        · exact Or.inr ⟨h3, h4⟩
    · simp only [List.mem_cons, Event.logRemoved.injEq, List.not_mem_nil, or_false,
        reduceCtorEq, false_or, or_false]
      constructor
      · rintro ((h | h2) | ⟨h3, h4⟩)
        · exact Or.inl h
        · subst h2
          exact Or.inr ⟨Or.inl rfl, h1⟩
        · exact Or.inr ⟨Or.inr h3, h4⟩
      · rintro (h | ⟨h3 | h3, h4⟩)
        · exact Or.inl (Or.inl h)
        · exact Or.inl (Or.inr h3)
        · exact Or.inr ⟨h3, h4⟩

theorem keys_events_logAdded (clock : Nat → Int) (ks : List Str) (f : Frame) (r : Str) :
    Event.logAdded r ∈ (ks.foldl (removedStep clock) f).events ↔
      Event.logAdded r ∈ f.events := by
  induction ks generalizing f with
  | nil => rfl
  | cons k ks ih =>
    rw [List.foldl_cons, ih, removedStep_events, List.mem_append]
    split_ifs with h1 <;> simp

/-! ## One call -/

theorem collectRoutes_none (clock : Nat → Int) (w : Sys) (c : Call) (h : c.output = none) :
    collectRoutes clock w c = { sys := w, events := [Event.logError] } := by
  simp only [collectRoutes, h]

theorem collectRoutes_some (clock : Nat → Int) (w : Sys) (c : Call) (out : Str)
    (h : c.output = some out) :
    collectRoutes clock w c =
      { sys :=
          { state :=
              { previousRoutes := (afterKeys clock w c.rangeSeed out).currentRoutes
                ipRouteChanges :=
                  if (afterKeys clock w c.rangeSeed out).changesDetected then 1 else 0
                ipRoutesList := (afterKeys clock w c.rangeSeed out).state.ipRoutesList
                ipRouteLastChangeTimestamp :=
                  (afterKeys clock w c.rangeSeed out).state.ipRouteLastChangeTimestamp }
            clockReads := (afterKeys clock w c.rangeSeed out).clockReads }
        events := (afterKeys clock w c.rangeSeed out).events ++
          [Event.setChanges
            (if (afterKeys clock w c.rangeSeed out).changesDetected then 1 else 0)] } := by
  simp only [collectRoutes, h, afterKeys, afterLines]

theorem afterLines_previousRoutes (clock : Nat → Int) (w : Sys) (out : Str) :
    (afterLines clock w out).state.previousRoutes = w.state.previousRoutes := by
  simp only [afterLines, lines_previousRoutes]

theorem afterLines_currentRoutes (clock : Nat → Int) (w : Sys) (out : Str) (r : Str) :
    r ∈ (afterLines clock w out).currentRoutes ↔ Seen (split out) r := by
  simp only [afterLines, lines_currentRoutes, List.not_mem_nil, false_or]

theorem afterLines_clockReads_le (clock : Nat → Int) (w : Sys) (out : Str) :
    w.clockReads ≤ (afterLines clock w out).clockReads :=
  lines_clockReads_le clock (split out)
    { state := w.state, clockReads := w.clockReads, events := [], currentRoutes := [],
      changesDetected := false }

theorem call_previousRoutes (clock : Nat → Int) (w : Sys) (c : Call) (out : Str)
    (h : c.output = some out) (r : Str) :
    r ∈ (collectRoutes clock w c).sys.state.previousRoutes ↔ Seen (split out) r := by
  rw [collectRoutes_some clock w c out h]
  simp only [afterKeys, keys_currentRoutes, afterLines_currentRoutes]

theorem call_clockReads_le (clock : Nat → Int) (w : Sys) (c : Call) :
    w.clockReads ≤ (collectRoutes clock w c).sys.clockReads := by
  cases h : c.output with
  | none => rw [collectRoutes_none clock w c h]
  | some out =>
    rw [collectRoutes_some clock w c out h]
    exact le_trans (afterLines_clockReads_le clock w out) (keys_clockReads_le clock _ _)

theorem call_ipRoutesList_seen (clock : Nat → Int) (w : Sys) (c : Call) (out : Str)
    (h : c.output = some out) (r : Str) (hs : Seen (split out) r) :
    (collectRoutes clock w c).sys.state.ipRoutesList r = some 1 := by
  rw [collectRoutes_some clock w c out h]
  simp only [afterKeys]
  rw [keys_ipRoutesList_other]
  · exact lines_ipRoutesList_seen clock _ _ r hs
  · rintro ⟨_, h2⟩
    exact h2 ((afterLines_currentRoutes clock w out r).2 hs)

theorem call_ipRoutesList_removed (clock : Nat → Int) (w : Sys) (c : Call) (out : Str)
    (h : c.output = some out) (r : Str) (hp : r ∈ w.state.previousRoutes)
    (hs : ¬ Seen (split out) r) :
    (collectRoutes clock w c).sys.state.ipRoutesList r = some 0 := by
  rw [collectRoutes_some clock w c out h]
  simp only [afterKeys]
  apply keys_ipRoutesList_removed
  · rw [mem_rangeKeys, afterLines_previousRoutes]
    exact hp
  · rw [afterLines_currentRoutes]
    exact hs

theorem call_ipRoutesList_other (clock : Nat → Int) (w : Sys) (c : Call) (out : Str)
    (h : c.output = some out) (r : Str) (hp : r ∉ w.state.previousRoutes)
    (hs : ¬ Seen (split out) r) :
    (collectRoutes clock w c).sys.state.ipRoutesList r = w.state.ipRoutesList r := by
  rw [collectRoutes_some clock w c out h]
  simp only [afterKeys]
  rw [keys_ipRoutesList_other]
  · exact lines_ipRoutesList_unseen clock _ _ r hs
  · rintro ⟨h1, _⟩
    rw [mem_rangeKeys, afterLines_previousRoutes] at h1
    exact hp h1

theorem call_timestamp_seen (clock : Nat → Int) (w : Sys) (c : Call) (out : Str)
    (h : c.output = some out) (r : Str) (hs : Seen (split out) r) :
    ∃ k, w.clockReads ≤ k ∧ k < (collectRoutes clock w c).sys.clockReads ∧
      (collectRoutes clock w c).sys.state.ipRouteLastChangeTimestamp r = some (clock k) := by
  rw [collectRoutes_some clock w c out h]
  simp only [afterKeys]
  obtain ⟨k, hk1, hk2, hk3⟩ := lines_timestamp_seen clock (split out)
    { state := w.state, clockReads := w.clockReads, events := [], currentRoutes := [],
      changesDetected := false } r hs
  refine ⟨k, hk1, lt_of_lt_of_le hk2 (keys_clockReads_le clock _ _), ?_⟩
  rw [keys_timestamp_other]
  · exact hk3
  · rintro ⟨_, h2⟩
    exact h2 ((afterLines_currentRoutes clock w out r).2 hs)

theorem call_timestamp_removed (clock : Nat → Int) (w : Sys) (c : Call) (out : Str)
    (h : c.output = some out) (r : Str) (hp : r ∈ w.state.previousRoutes)
    (hs : ¬ Seen (split out) r) :
    ∃ k, w.clockReads ≤ k ∧ k < (collectRoutes clock w c).sys.clockReads ∧
      (collectRoutes clock w c).sys.state.ipRouteLastChangeTimestamp r = some (clock k) := by
  rw [collectRoutes_some clock w c out h]
  simp only [afterKeys]
  obtain ⟨k, hk1, hk2, hk3⟩ := keys_timestamp_removed clock
    (rangeKeys c.rangeSeed (afterLines clock w out).state.previousRoutes)
    (afterLines clock w out) r
    (by rw [mem_rangeKeys, afterLines_previousRoutes]; exact hp)
    (by rw [afterLines_currentRoutes]; exact hs)
  exact ⟨k, le_trans (afterLines_clockReads_le clock w out) hk1, hk2, hk3⟩

theorem call_timestamp_other (clock : Nat → Int) (w : Sys) (c : Call) (out : Str)
    (h : c.output = some out) (r : Str) (hp : r ∉ w.state.previousRoutes)
    (hs : ¬ Seen (split out) r) :
    (collectRoutes clock w c).sys.state.ipRouteLastChangeTimestamp r =
      w.state.ipRouteLastChangeTimestamp r := by
  rw [collectRoutes_some clock w c out h]
  simp only [afterKeys]
  rw [keys_timestamp_other]
  · exact lines_timestamp_unseen clock _ _ r hs
  · rintro ⟨h1, _⟩
    rw [mem_rangeKeys, afterLines_previousRoutes] at h1
    exact hp h1

theorem call_changesDetected (clock : Nat → Int) (w : Sys) (c : Call) (out : Str) :
    (afterKeys clock w c.rangeSeed out).changesDetected = true ↔
      (∃ r, Seen (split out) r ∧ r ∉ w.state.previousRoutes) ∨
      (∃ r, r ∈ w.state.previousRoutes ∧ ¬ Seen (split out) r) := by
  simp only [afterKeys, keys_changesDetected, mem_rangeKeys, afterLines_previousRoutes,
    afterLines_currentRoutes]
  simp only [afterLines, lines_changesDetected, Bool.false_eq_true, false_or]

theorem call_events_setRoutesList (clock : Nat → Int) (w : Sys) (c : Call) (out : Str)
    (h : c.output = some out) (r : Str) (v : Int) :
    Event.setRoutesList r v ∈ (collectRoutes clock w c).events ↔
      (v = 1 ∧ Seen (split out) r) ∨
      (v = 0 ∧ r ∈ w.state.previousRoutes ∧ ¬ Seen (split out) r) := by
  rw [collectRoutes_some clock w c out h]
  simp only [List.mem_append, List.mem_singleton, reduceCtorEq, or_false, afterKeys,
    keys_events_setRoutesList, mem_rangeKeys, afterLines_previousRoutes,
    afterLines_currentRoutes]
  simp only [afterLines, lines_events_setRoutesList, List.not_mem_nil, false_or]

theorem call_events_logAdded (clock : Nat → Int) (w : Sys) (c : Call) (out : Str)
    (h : c.output = some out) (r : Str) :
    Event.logAdded r ∈ (collectRoutes clock w c).events ↔
      Seen (split out) r ∧ r ∉ w.state.previousRoutes := by
  rw [collectRoutes_some clock w c out h]
  simp only [List.mem_append, List.mem_singleton, reduceCtorEq, or_false, afterKeys,
    keys_events_logAdded]
  simp only [afterLines, lines_events_logAdded, List.not_mem_nil, false_or]

theorem call_events_logRemoved (clock : Nat → Int) (w : Sys) (c : Call) (out : Str)
    (h : c.output = some out) (r : Str) :
    Event.logRemoved r ∈ (collectRoutes clock w c).events ↔
      r ∈ w.state.previousRoutes ∧ ¬ Seen (split out) r := by
  rw [collectRoutes_some clock w c out h]
  simp only [List.mem_append, List.mem_singleton, reduceCtorEq, or_false, afterKeys,
    keys_events_logRemoved, mem_rangeKeys, afterLines_previousRoutes,
    afterLines_currentRoutes]
  simp only [afterLines, lines_events_logRemoved, List.not_mem_nil, false_or]

theorem call_ipRouteChanges (clock : Nat → Int) (w : Sys) (c : Call) (out : Str)
    (h : c.output = some out) :
    (collectRoutes clock w c).sys.state.ipRouteChanges =
      if (afterKeys clock w c.rangeSeed out).changesDetected then 1 else 0 := by
  rw [collectRoutes_some clock w c out h]

theorem call_ipRouteChanges_one (clock : Nat → Int) (w : Sys) (c : Call) (out : Str)
    (h : c.output = some out) :
    (collectRoutes clock w c).sys.state.ipRouteChanges = 1 ↔
      (∃ r, Seen (split out) r ∧ r ∉ w.state.previousRoutes) ∨
      (∃ r, r ∈ w.state.previousRoutes ∧ ¬ Seen (split out) r) := by
  rw [call_ipRouteChanges clock w c out h, ← call_changesDetected clock w c out]
  split_ifs with h1 <;> simp [h1]

theorem call_ipRouteChanges_zero (clock : Nat → Int) (w : Sys) (c : Call) (out : Str)
    (h : c.output = some out) :
    (collectRoutes clock w c).sys.state.ipRouteChanges = 0 ↔
      ¬ ((∃ r, Seen (split out) r ∧ r ∉ w.state.previousRoutes) ∨
         (∃ r, r ∈ w.state.previousRoutes ∧ ¬ Seen (split out) r)) := by
  rw [call_ipRouteChanges clock w c out h, ← call_changesDetected clock w c out]
  split_ifs with h1 <;> simp [h1]

theorem call_events_setChanges (clock : Nat → Int) (w : Sys) (c : Call) (out : Str)
    (h : c.output = some out) :
    (collectRoutes clock w c).events.getLast? =
      some (Event.setChanges (collectRoutes clock w c).sys.state.ipRouteChanges) := by
  rw [collectRoutes_some clock w c out h]
  simp

theorem lineStep_currentRoutes_eq (clock : Nat → Int) (f : Frame) (l : Str) :
    (lineStep clock f l).currentRoutes =
      if l = [] then f.currentRoutes else f.currentRoutes.insert (trimSpace l) := by
  simp only [lineStep]
  split_ifs <;> rfl

theorem lines_currentRoutes_eq (clock : Nat → Int) (ls : List Str) (f : Frame) :
    (ls.foldl (lineStep clock) f).currentRoutes =
      ls.foldl (fun cur l => if l = [] then cur else cur.insert (trimSpace l))
        f.currentRoutes := by
  induction ls generalizing f with
  | nil => rfl
  | cons l ls ih => rw [List.foldl_cons, ih, lineStep_currentRoutes_eq, List.foldl_cons]

theorem call_previousRoutes_eq (clock : Nat → Int) (w : Sys) (c : Call) (out : Str)
    (h : c.output = some out) :
    (collectRoutes clock w c).sys.state.previousRoutes =
      (split out).foldl (fun cur l => if l = [] then cur else cur.insert (trimSpace l)) [] := by
  rw [collectRoutes_some clock w c out h]
  simp only [afterKeys, keys_currentRoutes, afterLines, lines_currentRoutes_eq]

theorem call_timestamp_cases (clock : Nat → Int) (w : Sys) (c : Call) (r : Str) :
    (collectRoutes clock w c).sys.state.ipRouteLastChangeTimestamp r =
        w.state.ipRouteLastChangeTimestamp r ∨
      ∃ k, w.clockReads ≤ k ∧ k < (collectRoutes clock w c).sys.clockReads ∧
        (collectRoutes clock w c).sys.state.ipRouteLastChangeTimestamp r = some (clock k) := by
  cases h : c.output with
  | none =>
    left
    rw [collectRoutes_none clock w c h]
  | some out =>
    by_cases hs : Seen (split out) r
    · exact Or.inr (call_timestamp_seen clock w c out h r hs)
    · by_cases hp : r ∈ w.state.previousRoutes
      · exact Or.inr (call_timestamp_removed clock w c out h r hp hs)
      · exact Or.inl (call_timestamp_other clock w c out h r hp hs)

theorem run_nil (clock : Nat → Int) (w : Sys) : run clock w [] = w := rfl

theorem run_cons (clock : Nat → Int) (w : Sys) (c : Call) (cs : List Call) :
    run clock w (c :: cs) = run clock (collectRoutes clock w c).sys cs := rfl

theorem run_append (clock : Nat → Int) (w : Sys) (as bs : List Call) :
    run clock w (as ++ bs) = run clock (run clock w as) bs := by
  simp only [run, List.foldl_append]

theorem call_timestampsPast (clock : Nat → Int) (hm : Monotone clock) (w : Sys) (c : Call)
    (hw : TimestampsPast clock w) : TimestampsPast clock (collectRoutes clock w c).sys := by
  intro r v hv k hk
  rcases call_timestamp_cases clock w c r with h | ⟨j, _, hj2, hj3⟩
  · rw [h] at hv
    exact hw r v hv k (le_trans (call_clockReads_le clock w c) hk)
  · rw [hj3] at hv
    cases hv
    exact hm (le_trans (le_of_lt hj2) hk)

theorem call_timestamp_mono (clock : Nat → Int) (w : Sys) (c : Call)
    (hw : TimestampsPast clock w) (r : Str) (v : Int)
    (hv : w.state.ipRouteLastChangeTimestamp r = some v) :
    ∃ v', (collectRoutes clock w c).sys.state.ipRouteLastChangeTimestamp r = some v' ∧
      v ≤ v' := by
  rcases call_timestamp_cases clock w c r with h | ⟨j, hj1, _, hj3⟩
  · exact ⟨v, by rw [h, hv], le_refl _⟩
  · exact ⟨clock j, hj3, hw r v hv j hj1⟩

theorem run_timestampsPast (clock : Nat → Int) (hm : Monotone clock) (cs : List Call)
    (w : Sys) (hw : TimestampsPast clock w) : TimestampsPast clock (run clock w cs) := by
  induction cs generalizing w with
  | nil => exact hw
  | cons c cs ih =>
    rw [run_cons]
    exact ih _ (call_timestampsPast clock hm w c hw)

theorem run_timestamp_mono (clock : Nat → Int) (hm : Monotone clock) (cs : List Call)
    (w : Sys) (hw : TimestampsPast clock w) (r : Str) (v : Int)
    (hv : w.state.ipRouteLastChangeTimestamp r = some v) :
    ∃ v', (run clock w cs).state.ipRouteLastChangeTimestamp r = some v' ∧ v ≤ v' := by
  induction cs generalizing w v with
  | nil => exact ⟨v, hv, le_refl _⟩
  | cons c cs ih =>
    rw [run_cons]
    obtain ⟨v1, h1, h2⟩ := call_timestamp_mono clock w c hw r v hv
    obtain ⟨v2, h3, h4⟩ := ih _ (call_timestampsPast clock hm w c hw) v1 h1
    exact ⟨v2, h3, le_trans h2 h4⟩

theorem timestampsPast_init (clock : Nat → Int) : TimestampsPast clock Sys.init := by
  intro r v hv
  simp [Sys.init, State.init] at hv

theorem call_presenceAgrees (clock : Nat → Int) (w : Sys) (c : Call)
    (hw : PresenceAgrees w.state) : PresenceAgrees (collectRoutes clock w c).sys.state := by
  cases h : c.output with
  | none =>
    rw [collectRoutes_none clock w c h]
    exact hw
  | some out =>
    intro r
    rw [call_previousRoutes clock w c out h r]
    by_cases hs : Seen (split out) r
    · rw [call_ipRoutesList_seen clock w c out h r hs]
      exact ⟨⟨fun _ => hs, fun _ => rfl⟩, fun _ _ hn => absurd hs hn⟩
    · by_cases hp : r ∈ w.state.previousRoutes
      · rw [call_ipRoutesList_removed clock w c out h r hp hs]
        refine ⟨⟨fun h1 => ?_, fun h1 => absurd h1 hs⟩, fun v hv _ => ?_⟩
        · simp at h1
        · simpa using hv.symm
      · rw [call_ipRoutesList_other clock w c out h r hp hs]
        refine ⟨⟨fun h1 => ?_, fun h1 => absurd h1 hs⟩, fun v hv _ => ?_⟩
        · exact absurd ((hw r).1.1 h1) hp
        · exact (hw r).2 v hv hp

theorem run_presenceAgrees (clock : Nat → Int) (cs : List Call) (w : Sys)
    (hw : PresenceAgrees w.state) : PresenceAgrees (run clock w cs).state := by
  induction cs generalizing w with
  | nil => exact hw
  | cons c cs ih =>
    rw [run_cons]
    exact ih _ (call_presenceAgrees clock w c hw)

theorem presenceAgrees_init : PresenceAgrees State.init := by
  intro r
  simp [State.init]

/-! ## The claims -/

/-- C1 (failure isolation): when `cmd.Output()` returns an error, the call
leaves the whole system as it was (retained snapshot, change indicator, both
gauge vectors, clock position) and emits nothing but the error log line, so no
gauge is written. -/
theorem collectRoutes_failure_isolation (clock : Nat → Int) (w : Sys) (c : Call)
    (h : c.output = none) :
    (collectRoutes clock w c).sys = w ∧
      (collectRoutes clock w c).events = [Event.logError] := by
  rw [collectRoutes_none clock w c h]
  exact ⟨rfl, rfl⟩

/-- C2 (change indicator): after a successful call, with `P` the snapshot
retained before and `C` the one retained after, `ip_route_changes` is 1 exactly
when `C − P` or `P − C` is inhabited and 0 exactly when neither is; that value
is the last thing the call writes. -/
theorem collectRoutes_change_indicator (clock : Nat → Int) (w : Sys) (c : Call) (out : Str)
    (h : c.output = some out) :
    ((collectRoutes clock w c).sys.state.ipRouteChanges = 1 ↔
      (∃ r, r ∈ (collectRoutes clock w c).sys.state.previousRoutes ∧
          r ∉ w.state.previousRoutes) ∨
      (∃ r, r ∈ w.state.previousRoutes ∧
          r ∉ (collectRoutes clock w c).sys.state.previousRoutes)) ∧
    ((collectRoutes clock w c).sys.state.ipRouteChanges = 0 ↔
      ¬ ((∃ r, r ∈ (collectRoutes clock w c).sys.state.previousRoutes ∧
            r ∉ w.state.previousRoutes) ∨
         (∃ r, r ∈ w.state.previousRoutes ∧
            r ∉ (collectRoutes clock w c).sys.state.previousRoutes))) ∧
    (collectRoutes clock w c).events.getLast? =
      some (Event.setChanges (collectRoutes clock w c).sys.state.ipRouteChanges) := by
  refine ⟨?_, ?_, call_events_setChanges clock w c out h⟩
  · rw [call_ipRouteChanges_one clock w c out h]
    simp only [call_previousRoutes clock w c out h]
  · rw [call_ipRouteChanges_zero clock w c out h]
    simp only [call_previousRoutes clock w c out h]

/-- C3 (failing input): two successful cycles that both fetch the single route
`a`, the clock reading 100 and then 200.  In the second cycle `a` is in both
the previous and the current snapshot and is not logged as added, yet its
last-change timestamp is written again and moves from 100 to 200. -/
theorem unchanged_route_timestamp_is_refreshed :
    (run sampleClock Sys.init [sampleCall]).state.ipRouteLastChangeTimestamp ['a'] =
        some 100 ∧
      ['a'] ∈ (run sampleClock Sys.init [sampleCall]).state.previousRoutes ∧
      ['a'] ∈ (run sampleClock Sys.init [sampleCall, sampleCall]).state.previousRoutes ∧
      Event.logAdded ['a'] ∉
        (collectRoutes sampleClock (run sampleClock Sys.init [sampleCall]) sampleCall).events ∧
      Event.setLastChange ['a'] 200 ∈
        (collectRoutes sampleClock (run sampleClock Sys.init [sampleCall]) sampleCall).events ∧
      (run sampleClock Sys.init [sampleCall, sampleCall]).state.ipRouteLastChangeTimestamp
        ['a'] = some 200 := by
  decide

/-- C4 (failing input): on the output `"a\n \n"` the second line holds one
space; it is not the empty string, so it is trimmed to the empty string and
kept: the retained snapshot contains the empty route, which also gets a
presence gauge of 1. -/
theorem blank_line_becomes_empty_route :
    (collectRoutes sampleClock Sys.init blankLineCall).sys.state.previousRoutes =
        [[], ['a']] ∧
      (collectRoutes sampleClock Sys.init blankLineCall).sys.state.ipRoutesList [] =
        some 1 := by
  decide

/-- C5 (removal handling): in a successful call, with `P` the snapshot retained
before and `C` the one retained after, the presence gauge is set to 0 for
exactly the routes of `P − C`; each of them ends with presence 0 and with a
last-change timestamp equal to a clock reading taken during this call; and
every route of `C` ends with presence 1, hence not 0. -/
theorem collectRoutes_removal_handling (clock : Nat → Int) (w : Sys) (c : Call) (out : Str)
    (h : c.output = some out) :
    (∀ r, Event.setRoutesList r 0 ∈ (collectRoutes clock w c).events ↔
      (r ∈ w.state.previousRoutes ∧
        r ∉ (collectRoutes clock w c).sys.state.previousRoutes)) ∧
    (∀ r, r ∈ w.state.previousRoutes →
      r ∉ (collectRoutes clock w c).sys.state.previousRoutes →
      (collectRoutes clock w c).sys.state.ipRoutesList r = some 0 ∧
      ∃ k, w.clockReads ≤ k ∧ k < (collectRoutes clock w c).sys.clockReads ∧
        (collectRoutes clock w c).sys.state.ipRouteLastChangeTimestamp r =
          some (clock k)) ∧
    (∀ r, r ∈ (collectRoutes clock w c).sys.state.previousRoutes →
      (collectRoutes clock w c).sys.state.ipRoutesList r = some 1 ∧
      (collectRoutes clock w c).sys.state.ipRoutesList r ≠ some 0) := by
  refine ⟨fun r => ?_, fun r hp hc => ?_, fun r hc => ?_⟩
  · rw [call_events_setRoutesList clock w c out h, call_previousRoutes clock w c out h]
    simp
  · rw [call_previousRoutes clock w c out h] at hc
    exact ⟨call_ipRoutesList_removed clock w c out h r hp hc,
      call_timestamp_removed clock w c out h r hp hc⟩
  · rw [call_previousRoutes clock w c out h] at hc
    rw [call_ipRoutesList_seen clock w c out h r hc]
    exact ⟨rfl, by simp⟩

/-- C6 (repeated snapshot): two successful calls in a row that fetch the same
output.  The second call logs no added and no removed route, sets the change
indicator to 0, sets no presence gauge to 0, and leaves the retained snapshot
and the whole presence gauge vector as the first call left them. -/
theorem collectRoutes_repeated_snapshot (clock : Nat → Int) (w : Sys) (c1 c2 : Call)
    (out : Str) (h1 : c1.output = some out) (h2 : c2.output = some out) :
    (∀ r, Event.logAdded r ∉
      (collectRoutes clock (collectRoutes clock w c1).sys c2).events) ∧
    (∀ r, Event.logRemoved r ∉
      (collectRoutes clock (collectRoutes clock w c1).sys c2).events) ∧
    (collectRoutes clock (collectRoutes clock w c1).sys c2).sys.state.ipRouteChanges = 0 ∧
    (∀ r, Event.setRoutesList r 0 ∉
      (collectRoutes clock (collectRoutes clock w c1).sys c2).events) ∧
    (collectRoutes clock (collectRoutes clock w c1).sys c2).sys.state.previousRoutes =
      (collectRoutes clock w c1).sys.state.previousRoutes ∧
    (collectRoutes clock (collectRoutes clock w c1).sys c2).sys.state.ipRoutesList =
      (collectRoutes clock w c1).sys.state.ipRoutesList := by
  refine ⟨fun r => ?_, fun r => ?_, ?_, fun r => ?_, ?_, ?_⟩
  · rw [call_events_logAdded clock _ c2 out h2, call_previousRoutes clock w c1 out h1]
    tauto
  · rw [call_events_logRemoved clock _ c2 out h2, call_previousRoutes clock w c1 out h1]
    tauto
  · rw [call_ipRouteChanges_zero clock _ c2 out h2]
    simp only [call_previousRoutes clock w c1 out h1]
    rintro (⟨r, hr1, hr2⟩ | ⟨r, hr1, hr2⟩)
    · exact hr2 hr1
    · exact hr2 hr1
  · rw [call_events_setRoutesList clock _ c2 out h2, call_previousRoutes clock w c1 out h1]
    simp
  · rw [call_previousRoutes_eq clock _ c2 out h2, call_previousRoutes_eq clock w c1 out h1]
  · funext r
    by_cases hs : Seen (split out) r
    · rw [call_ipRoutesList_seen clock _ c2 out h2 r hs,
        call_ipRoutesList_seen clock w c1 out h1 r hs]
    · rw [call_ipRoutesList_other clock _ c2 out h2 r _ hs]
      rw [call_previousRoutes clock w c1 out h1]
      exact hs

/-- C7 (timestamps never regress): with a non-decreasing clock, starting from
the initial process state, once the last-change timestamp of a route holds `v`
after the first `i` cycles of any sequence of successful and failed cycles, it
holds some `v' ≥ v` after the first `j` cycles, for every `j ≥ i`. -/
theorem timestamps_never_regress (clock : Nat → Int) (hm : Monotone clock)
    (cs : List Call) (i j : Nat) (hij : i ≤ j) (r : Str) (v : Int)
    (hv : (run clock Sys.init (cs.take i)).state.ipRouteLastChangeTimestamp r = some v) :
    ∃ v', (run clock Sys.init (cs.take j)).state.ipRouteLastChangeTimestamp r = some v' ∧
      v ≤ v' := by
  have hsplit : cs.take j = cs.take i ++ (cs.take j).drop i := by
    conv_lhs => rw [← List.take_append_drop i (cs.take j)]
    rw [List.take_take, min_eq_left hij]
  rw [hsplit, run_append]
  exact run_timestamp_mono clock hm _ _
    (run_timestampsPast clock hm _ _ (timestampsPast_init clock)) r v hv

/-- C8 (order and duplicate independence): from the same system, with one
clock reading `now` used throughout, two successful calls whose outputs yield
the same set of route identifiers (whatever the order and multiplicity of the
lines, and whatever the order in which the map is ranged over) retain the same
set of routes and leave the same presence gauges, the same last-change
timestamps and the same change indicator. -/
theorem collectRoutes_order_independent (now : Int) (w : Sys) (c1 c2 : Call)
    (out1 out2 : Str) (h1 : c1.output = some out1) (h2 : c2.output = some out2)
    (hsame : ∀ r, Seen (split out1) r ↔ Seen (split out2) r) :
    (∀ r, r ∈ (collectRoutes (fun _ => now) w c1).sys.state.previousRoutes ↔
      r ∈ (collectRoutes (fun _ => now) w c2).sys.state.previousRoutes) ∧
    (collectRoutes (fun _ => now) w c1).sys.state.ipRoutesList =
      (collectRoutes (fun _ => now) w c2).sys.state.ipRoutesList ∧
    (collectRoutes (fun _ => now) w c1).sys.state.ipRouteLastChangeTimestamp =
      (collectRoutes (fun _ => now) w c2).sys.state.ipRouteLastChangeTimestamp ∧
    (collectRoutes (fun _ => now) w c1).sys.state.ipRouteChanges =
      (collectRoutes (fun _ => now) w c2).sys.state.ipRouteChanges := by
  refine ⟨fun r => ?_, ?_, ?_, ?_⟩
  · rw [call_previousRoutes _ w c1 out1 h1, call_previousRoutes _ w c2 out2 h2]
    exact hsame r
  · funext r
    by_cases hs : Seen (split out1) r
    · rw [call_ipRoutesList_seen _ w c1 out1 h1 r hs,
        call_ipRoutesList_seen _ w c2 out2 h2 r ((hsame r).1 hs)]
    · have hs2 : ¬ Seen (split out2) r := fun hh => hs ((hsame r).2 hh)
      by_cases hp : r ∈ w.state.previousRoutes
      · rw [call_ipRoutesList_removed _ w c1 out1 h1 r hp hs,
          call_ipRoutesList_removed _ w c2 out2 h2 r hp hs2]
      · rw [call_ipRoutesList_other _ w c1 out1 h1 r hp hs,
          call_ipRoutesList_other _ w c2 out2 h2 r hp hs2]
  · funext r
    by_cases hs : Seen (split out1) r
    · obtain ⟨_, _, _, e1⟩ := call_timestamp_seen (fun _ => now) w c1 out1 h1 r hs
      obtain ⟨_, _, _, e2⟩ :=
        call_timestamp_seen (fun _ => now) w c2 out2 h2 r ((hsame r).1 hs)
      rw [e1, e2]
    · have hs2 : ¬ Seen (split out2) r := fun hh => hs ((hsame r).2 hh)
      by_cases hp : r ∈ w.state.previousRoutes
      · obtain ⟨_, _, _, e1⟩ := call_timestamp_removed (fun _ => now) w c1 out1 h1 r hp hs
        obtain ⟨_, _, _, e2⟩ := call_timestamp_removed (fun _ => now) w c2 out2 h2 r hp hs2
        rw [e1, e2]
      · rw [call_timestamp_other _ w c1 out1 h1 r hp hs,
          call_timestamp_other _ w c2 out2 h2 r hp hs2]
  · rw [call_ipRouteChanges _ w c1 out1 h1, call_ipRouteChanges _ w c2 out2 h2]
    have e : (afterKeys (fun _ => now) w c1.rangeSeed out1).changesDetected = true ↔
        (afterKeys (fun _ => now) w c2.rangeSeed out2).changesDetected = true := by
      rw [call_changesDetected, call_changesDetected]
      simp only [hsame]
    by_cases hc : (afterKeys (fun _ => now) w c1.rangeSeed out1).changesDetected = true
    · rw [if_pos hc, if_pos (e.1 hc)]
    · rw [if_neg hc, if_neg (fun hh => hc (e.2 hh))]

/-- C10 (presence agrees with the retained snapshot): after any sequence of
successful and failed cycles from the initial process state, a route has
presence 1 exactly when it is in the retained snapshot, and every route that
has a presence gauge without being in the retained snapshot has presence 0. -/
theorem presence_agrees_with_snapshot (clock : Nat → Int) (cs : List Call) (r : Str) :
    ((run clock Sys.init cs).state.ipRoutesList r = some 1 ↔
      r ∈ (run clock Sys.init cs).state.previousRoutes) ∧
    ∀ v, (run clock Sys.init cs).state.ipRoutesList r = some v →
      r ∉ (run clock Sys.init cs).state.previousRoutes → v = 0 :=
  run_presenceAgrees clock cs Sys.init presenceAgrees_init r

/-! ## Instances of the conditional statements -/

theorem monotone_sampleClock : Monotone sampleClock := by
  intro a b h
  simp only [sampleClock]
  have h' : (a : Int) ≤ (b : Int) := Int.ofNat_le.2 h
  linarith

theorem seen_twoRoutes_shuffled (r : Str) :
    Seen (split ['a', '\n', 'b', '\n']) r ↔
      Seen (split ['b', '\n', ' ', 'a', '\n', 'a', ' ', '\n']) r := by
  have e1 : split ['a', '\n', 'b', '\n'] = [['a'], ['b'], []] := by decide
  have e2 : split ['b', '\n', ' ', 'a', '\n', 'a', ' ', '\n'] =
      [['b'], [' ', 'a'], ['a', ' '], []] := by decide
  have t1 : trimSpace ['a'] = ['a'] := by decide
  have t2 : trimSpace ['b'] = ['b'] := by decide
  have t3 : trimSpace [' ', 'a'] = ['a'] := by decide
  have t4 : trimSpace ['a', ' '] = ['a'] := by decide
  rw [e1, e2]
  simp only [seen_cons, t1, t2, t3, t4]
  simp [seen_nil]
  tauto

theorem collectRoutes_failure_isolation_witness :
    failedCall.output = none ∧
      (collectRoutes sampleClock (run sampleClock Sys.init [twoRoutesCall]) failedCall).sys =
        run sampleClock Sys.init [twoRoutesCall] ∧
      (collectRoutes sampleClock (run sampleClock Sys.init [twoRoutesCall]) failedCall).events =
        [Event.logError] :=
  ⟨rfl, collectRoutes_failure_isolation sampleClock
    (run sampleClock Sys.init [twoRoutesCall]) failedCall rfl⟩

theorem collectRoutes_change_indicator_witness :
    sampleCall.output = some ['a', '\n'] ∧
      (collectRoutes sampleClock Sys.init sampleCall).sys.state.ipRouteChanges = 1 :=
  ⟨rfl, (collectRoutes_change_indicator sampleClock Sys.init sampleCall ['a', '\n'] rfl).1.2
    (Or.inl ⟨['a'], by decide, by decide⟩)⟩

theorem collectRoutes_removal_handling_witness :
    sampleCall.output = some ['a', '\n'] ∧
      ['b'] ∈ (run sampleClock Sys.init [twoRoutesCall]).state.previousRoutes ∧
      ['b'] ∉ (collectRoutes sampleClock (run sampleClock Sys.init [twoRoutesCall])
        sampleCall).sys.state.previousRoutes ∧
      Event.setRoutesList ['b'] 0 ∈
        (collectRoutes sampleClock (run sampleClock Sys.init [twoRoutesCall])
          sampleCall).events :=
  ⟨rfl, by decide, by decide,
    ((collectRoutes_removal_handling sampleClock (run sampleClock Sys.init [twoRoutesCall])
      sampleCall ['a', '\n'] rfl).1 ['b']).2 ⟨by decide, by decide⟩⟩

theorem collectRoutes_repeated_snapshot_witness :
    twoRoutesCall.output = some ['a', '\n', 'b', '\n'] ∧
      (collectRoutes sampleClock (collectRoutes sampleClock Sys.init twoRoutesCall).sys
        twoRoutesCall).sys.state.ipRouteChanges = 0 :=
  ⟨rfl, (collectRoutes_repeated_snapshot sampleClock Sys.init twoRoutesCall twoRoutesCall
    ['a', '\n', 'b', '\n'] rfl rfl).2.2.1⟩

theorem timestamps_never_regress_witness :
    Monotone sampleClock ∧ 1 ≤ 3 ∧
      (run sampleClock Sys.init
        ([twoRoutesCall, failedCall, sampleCall].take 1)).state.ipRouteLastChangeTimestamp
          ['b'] = some 200 ∧
      ∃ v', (run sampleClock Sys.init
          ([twoRoutesCall, failedCall, sampleCall].take 3)).state.ipRouteLastChangeTimestamp
            ['b'] = some v' ∧ 200 ≤ v' :=
  ⟨monotone_sampleClock, by decide, by decide,
    timestamps_never_regress sampleClock monotone_sampleClock
      [twoRoutesCall, failedCall, sampleCall] 1 3 (by decide) ['b'] 200 (by decide)⟩

theorem collectRoutes_order_independent_witness :
    twoRoutesCall.output = some ['a', '\n', 'b', '\n'] ∧
      shuffledCall.output = some ['b', '\n', ' ', 'a', '\n', 'a', ' ', '\n'] ∧
      (collectRoutes (fun _ => 500) (run sampleClock Sys.init [sampleCall])
          twoRoutesCall).sys.state.ipRouteLastChangeTimestamp =
        (collectRoutes (fun _ => 500) (run sampleClock Sys.init [sampleCall])
          shuffledCall).sys.state.ipRouteLastChangeTimestamp :=
  ⟨rfl, rfl, (collectRoutes_order_independent 500 (run sampleClock Sys.init [sampleCall])
    twoRoutesCall shuffledCall ['a', '\n', 'b', '\n']
    ['b', '\n', ' ', 'a', '\n', 'a', ' ', '\n'] rfl rfl seen_twoRoutes_shuffled).2.2.1⟩

end RouteExporter
